import Mathlib

/-!
Shallow embedding of the applicant-tracking backends of this repository:
`src/server.js` (flat JSON-file backend) and `src/unnamed/part_000`
(document-database backend). Applicant records, the HTTP handlers'
state transformations, upload handling and the error-response shapes
are translated directly from the handler code; theorems about the
frozen claims follow the definitions.
-/

/-- A comment embedded in an applicant, per the `commentSchema` of the
document backend (`person`, `text`, `date`, all strings). -/
structure Comment where
  person : String
  text : String
  date : String
deriving DecidableEq

/-- Accumulate decimal digits, as `parseInt` does once digits start. -/
def digitsToNat : List Char → Nat → Nat
  | [], acc => acc
  | c :: cs, acc => digitsToNat cs (acc * 10 + (c.toNat - 48))

/-- JS `parseInt(s)` on a decimal string: skip leading whitespace, read an
optional sign and then leading decimal digits; `none` models the `NaN`
result produced when no digits are found. -/
def parseIntJS (s : String) : Option Int :=
  let t := s.toList.dropWhile (fun c => c.isWhitespace)
  let signed : Bool × List Char :=
    match t with
    | c :: rest =>
      if c = '-' then (true, rest)
      else if c = '+' then (false, rest)
      else (false, t)
    | [] => (false, [])
  let ds := signed.2.takeWhile (fun c => c.isDigit)
  if ds.isEmpty then none
  else
    let n : Nat := digitsToNat ds 0
    some (if signed.1 then -(n : Int) else (n : Int))

/-- An applicant object as stored by the flat-file backend: the stamped
`id` and `dateAdded` fields, the `comments` array (absent until first
written), and the remaining free-form string fields of the JSON object. -/
structure Applicant where
  id : Option Int
  dateAdded : Option String
  comments : Option (List Comment)
  other : List (String × String)
deriving DecidableEq

/-- A request body (`req.body`) for insert or update: any subset of the
fields of an applicant object, including possibly `id`, `dateAdded` or
`comments` keys. -/
structure Payload where
  id : Option Int
  dateAdded : Option String
  comments : Option (List Comment)
  other : List (String × String)
deriving DecidableEq

/-- Value of a free-form field `k` in a JSON object, `none` when absent. -/
def lookupField (fs : List (String × String)) (k : String) : Option String :=
  (fs.find? (fun q => q.1 == k)).map Prod.snd

/-- JS object spread of `b` onto `a` restricted to the free-form fields:
keys of `a` keep their position but take `b`'s value when `b` also has the
key; keys only in `b` are appended. -/
def mergeOther (a b : List (String × String)) : List (String × String) :=
  a.map (fun q => (q.1, (lookupField b q.1).getD q.2)) ++
    b.filter (fun q => (lookupField a q.1).isNone)

/-- The spread merge of PUT /api/applicants/:id in server.js line 106,
`applicants[index] = ...` with the body's fields written after the stored
record's: every field present in the payload wins. -/
def mergeApplicant (a : Applicant) (p : Payload) : Applicant :=
  { id := p.id.orElse (fun _ => a.id)
    dateAdded := p.dateAdded.orElse (fun _ => a.dateAdded)
    comments := p.comments.orElse (fun _ => a.comments)
    other := mergeOther a.other p.other }

/-- JS strict equality `a.id === applicantId` where `applicantId` is the
`parseInt` result (`none` models `NaN`): `NaN` compares unequal to every
value, and a record lacking an `id` field compares unequal to any number. -/
def idEq (recId : Option Int) (pid : Option Int) : Bool :=
  match recId, pid with
  | some a, some b => a == b
  | _, _ => false

/-- The record built by POST /api/applicants: the body's fields with `id`
and `dateAdded` stamped after the spread, so the stamps win over any such
keys in the body. -/
def mkApplicant (p : Payload) (now : Int) (today : String) : Applicant :=
  { id := some now, dateAdded := some today, comments := p.comments, other := p.other }

/-- The comment-merge transform of POST /api/applicants/:id/comments:
drop every existing comment whose `person` strict-equals the new comment's
`person`, then push the new comment. -/
def mergeComment (existing : List Comment) (c : Comment) : List Comment :=
  existing.filter (fun x => x.person != c.person) ++ [c]

/-- The stored comment array, `[]` when the field is absent (the handler
initialises a missing `comments` field to `[]`). -/
def commentsOf (a : Applicant) : List Comment :=
  a.comments.getD []

/-- Effect of the comment handler on the addressed record. -/
def addCommentToRecord (a : Applicant) (c : Comment) : Applicant :=
  { a with comments := some (mergeComment (commentsOf a) c) }

/-- JS `findIndex(a => a.id === applicantId)` together with the element
found: index of the first matching record and the record itself. -/
def findRec (s : List Applicant) (pid : Option Int) : Option (Nat × Applicant) :=
  match s with
  | [] => none
  | a :: rest =>
    if idEq a.id pid then some (0, a)
    else (findRec rest pid).map (fun q => (q.1 + 1, q.2))

/-- Shape of a JSON response of the file backend's handlers: HTTP status,
the `success` flag, and the optional `error`, `applicant` and `comment`
body fields. -/
structure Resp where
  status : Nat
  success : Bool
  error : Option String
  applicant : Option Applicant
  comment : Option Comment
deriving DecidableEq

/-- One HTTP operation against the file backend's mutating endpoints.
`now`/`today` stand for `Date.now()` and `new Date().toLocaleDateString()`;
`writeOk` is whether `writeApplicants` (the rewrite of the JSON file)
succeeds. -/
inductive Op where
  | insert (p : Payload) (now : Int) (today : String) (writeOk : Bool)
  | update (idStr : String) (p : Payload) (writeOk : Bool)
  | delete (idStr : String) (writeOk : Bool)
  | addComment (idStr : String) (c : Comment) (writeOk : Bool)
  | clearAll (writeOk : Bool)

/-- State transformation and response of each mutating handler of
server.js. The state is the applicant array persisted in the JSON file;
when the rewrite fails the file keeps its prior contents and the handler
answers 500. -/
def applyOp (s : List Applicant) : Op → List Applicant × Resp
  | .insert p now today wOk =>
    let r := mkApplicant p now today
    if wOk then (s ++ [r], ⟨200, true, none, some r, none⟩)
    else (s, ⟨500, false, some "Failed to save applicant", none, none⟩)
  | .update idStr p wOk =>
    match findRec s (parseIntJS idStr) with
    | some (i, a) =>
      let a2 := mergeApplicant a p
      if wOk then (s.set i a2, ⟨200, true, none, some a2, none⟩)
      else (s, ⟨500, false, some "Failed to update applicant", none, none⟩)
    | none => (s, ⟨404, false, some "Applicant not found", none, none⟩)
  | .delete idStr wOk =>
    match findRec s (parseIntJS idStr) with
    | some (i, _) =>
      if wOk then (s.eraseIdx i, ⟨200, true, none, none, none⟩)
      else (s, ⟨500, false, some "Failed to delete applicant", none, none⟩)
    | none => (s, ⟨404, false, some "Applicant not found", none, none⟩)
  | .addComment idStr c wOk =>
    match findRec s (parseIntJS idStr) with
    | some (i, a) =>
      let a2 := addCommentToRecord a c
      if wOk then (s.set i a2, ⟨200, true, none, none, some c⟩)
      else (s, ⟨500, false, some "Failed to add comment", none, none⟩)
    | none => (s, ⟨404, false, some "Applicant not found", none, none⟩)
  | .clearAll wOk =>
    if wOk then ([], ⟨200, true, none, none, none⟩)
    else (s, ⟨500, false, some "Failed to clear applicants", none, none⟩)

/-- Condition of the backing JSON file seen by `readApplicants`: absent,
present but unreadable or unparsable while holding `persisted` records,
or readable with contents `l`. -/
inductive FileState where
  | absent
  | unreadable (persisted : List Applicant)
  | content (l : List Applicant)

/-- `readApplicants` of server.js: parse the file when readable, return
`[]` when it does not exist, and also return `[]` (after logging) when
reading or parsing throws. -/
def readApplicants : FileState → List Applicant
  | .absent => []
  | .unreadable _ => []
  | .content l => l

/-- The records a file state actually persists. -/
def persistedRecords : FileState → List Applicant
  | .absent => []
  | .unreadable l => l
  | .content l => l

/-- GET /api/applicants of the file backend: always answers 200 with the
array `readApplicants` produced. -/
def fileListResponse (fs : FileState) : Nat × List Applicant :=
  (200, readApplicants fs)

/-- An applicant document of the document backend, per `applicantSchema`:
a required numeric `id`, the named optional string fields, and an embedded
`comments` array. -/
structure MApplicant where
  id : Int
  fullName : Option String
  linkedinUrl : Option String
  expectedSalary : Option String
  notes : Option String
  resumeName : Option String
  resumePath : Option String
  dateAdded : Option String
  comments : List Comment
deriving DecidableEq

/-- A request body for the document backend's update, cast through the
schema: any subset of the schema's paths (non-schema keys are stripped by
strict mode). -/
structure MPayload where
  id : Option Int
  fullName : Option String
  linkedinUrl : Option String
  expectedSalary : Option String
  notes : Option String
  resumeName : Option String
  resumePath : Option String
  dateAdded : Option String
  comments : Option (List Comment)
deriving DecidableEq

/-- Whether a document matches the query `\x7b id: applicantId \x7d`;
`none` models a `NaN` id, which matches no stored number. -/
def mMatches (a : MApplicant) (pid : Option Int) : Bool :=
  match pid with
  | some n => a.id == n
  | none => false

/-- The `$set` stage of `findOneAndUpdate`: every path present in the
payload overwrites the document's value, other paths are untouched. -/
def mSet (a : MApplicant) (p : MPayload) : MApplicant :=
  { id := p.id.getD a.id
    fullName := p.fullName.orElse (fun _ => a.fullName)
    linkedinUrl := p.linkedinUrl.orElse (fun _ => a.linkedinUrl)
    expectedSalary := p.expectedSalary.orElse (fun _ => a.expectedSalary)
    notes := p.notes.orElse (fun _ => a.notes)
    resumeName := p.resumeName.orElse (fun _ => a.resumeName)
    resumePath := p.resumePath.orElse (fun _ => a.resumePath)
    dateAdded := p.dateAdded.orElse (fun _ => a.dateAdded)
    comments := p.comments.getD a.comments }

/-- Apply `f` to the first document matching the query, as the
single-document operations `updateOne`/`findOneAndUpdate` do; no match
leaves the collection unchanged. -/
def updateFirst (s : List MApplicant) (pid : Option Int)
    (f : MApplicant → MApplicant) : List MApplicant :=
  match s with
  | [] => []
  | a :: rest =>
    if mMatches a pid then f a :: rest else a :: updateFirst rest pid f

/-- Remove the first document matching the query (`deleteOne`). -/
def eraseFirst (s : List MApplicant) (pid : Option Int) : List MApplicant :=
  match s with
  | [] => []
  | a :: rest =>
    if mMatches a pid then rest else a :: eraseFirst rest pid

/-- Response shape shared by both backends' error paths: status, the
`success` field when the body has one (`none` when the body carries no
`success` key), and the `error` message. -/
structure ErrResp where
  status : Nat
  success : Option Bool
  error : Option String
deriving DecidableEq

/-- PUT /api/applicants/:id of the document backend: `findOneAndUpdate`
with `$set`; a null result answers 404 and leaves the collection as is. -/
def mUpdate (s : List MApplicant) (idStr : String) (p : MPayload) :
    List MApplicant × ErrResp :=
  let pid := parseIntJS idStr
  if s.any (fun a => mMatches a pid) then
    (updateFirst s pid (fun a => mSet a p), ⟨200, some true, none⟩)
  else (s, ⟨404, some false, some "Applicant not found"⟩)

/-- DELETE /api/applicants/:id of the document backend: `deleteOne`,
404 when `deletedCount` is zero. -/
def mDelete (s : List MApplicant) (idStr : String) : List MApplicant × ErrResp :=
  let pid := parseIntJS idStr
  if s.any (fun a => mMatches a pid) then
    (eraseFirst s pid, ⟨200, some true, none⟩)
  else (s, ⟨404, some false, some "Applicant not found"⟩)

/-- POST /api/applicants/:id/comments of the document backend: first an
`updateOne` pulling every comment of the same person from the matching
document, then a `findOneAndUpdate` pushing the new comment; a null push
result answers 404. -/
def mAddComment (s : List MApplicant) (idStr : String) (c : Comment) :
    List MApplicant × ErrResp :=
  let pid := parseIntJS idStr
  let s1 := updateFirst s pid
    (fun a => { a with comments := a.comments.filter (fun x => x.person != c.person) })
  if s1.any (fun a => mMatches a pid) then
    (updateFirst s1 pid (fun a => { a with comments := a.comments ++ [c] }), ⟨200, some true, none⟩)
  else (s1, ⟨404, some false, some "Applicant not found"⟩)

/-- GET /api/applicants of the document backend: the collection's
documents on success, a 500 condition when the query throws. -/
def mList (dbOk : Bool) (docs : List MApplicant) : Nat × List MApplicant :=
  if dbOk then (200, docs) else (500, [])

/-- A resume-upload request as the multer middleware sees it: whether a
file part is present, its declared mimetype and original name, and the
optional client-supplied `fileName` form field. -/
structure UploadReq where
  hasFile : Bool
  mimetype : String
  fileName : Option String
  originalname : String
deriving DecidableEq

/-- Outcome of POST /api/upload-resume: response status, whether a file
was written to the asset directory, and the stored filename. -/
structure UploadOutcome where
  status : Nat
  fileWritten : Bool
  storedName : Option String
deriving DecidableEq

/-- POST /api/upload-resume through the multer middleware. `fileFilter`
accepts only mimetype application/pdf; for any other type it passes an
`Error` to multer, which forwards it to Express's default error handler
(server.js installs no error middleware), so the response status is 500
and no file is written. A request with no file part reaches the route
handler with `req.file` undefined and is answered 400. Otherwise the file
is stored under `req.body.fileName` when supplied, else under
`Date.now() + underscore + originalname`. -/
def uploadResume (r : UploadReq) (now : Int) : UploadOutcome :=
  if r.hasFile then
    if r.mimetype == "application/pdf" then
      ⟨200, true, some (r.fileName.getD (toString now ++ "_" ++ r.originalname))⟩
    else ⟨500, false, none⟩
  else ⟨400, false, none⟩

/-- The 500 response of the document backend's GET /api/applicants catch
branch: `res.status(500).json(\x7b error: 'Failed to fetch applicants' \x7d)` —
its body carries no `success` field. -/
def mongoListError : ErrResp :=
  ⟨500, none, some "Failed to fetch applicants"⟩

/-- Every 500 response constructed by handler code in the two servers:
the fixed-message write-failure branches and catch branches of
server.js, and the catch branches of the document backend, whose runtime
exception message is `msg`. -/
def errorResponses (msg : String) : List ErrResp :=
  [ ⟨500, some false, some "Failed to save applicant"⟩
  , ⟨500, some false, some "Failed to update applicant"⟩
  , ⟨500, some false, some "Failed to delete applicant"⟩
  , ⟨500, some false, some "Failed to add comment"⟩
  , ⟨500, some false, some "Failed to clear applicants"⟩
  , ⟨500, some false, some msg⟩
  , mongoListError
  , ⟨500, some false, some msg⟩
  ]

/-- States of the file backend reachable from the empty store by
operations satisfying `P`. -/
inductive ReachableVia (P : Op → Prop) : List Applicant → Prop where
  | nil : ReachableVia P []
  | step {s : List Applicant} {op : Op} :
      ReachableVia P s → P op → ReachableVia P (applyOp s op).1

/-- The comment sequence of `a` holds at most one comment per distinct
person. -/
def personsNodup (a : Applicant) : Prop :=
  ((commentsOf a).map Comment.person).Nodup

/-- The at-most-one-comment-per-person invariant over a whole store. -/
def invC2 (s : List Applicant) : Prop :=
  ∀ a ∈ s, personsNodup a

/-- Operations whose insert and update bodies carry no `comments` key. -/
def benignOp : Op → Prop
  | .insert p _ _ _ => p.comments = none
  | .update _ p _ => p.comments = none
  | _ => True

/-- Per-record operations addressed to one applicant: a partial update
body or a new comment. -/
inductive RecOp where
  | update (p : Payload)
  | comment (c : Comment)

/-- Effect of one addressed operation on the record, exactly as the
corresponding handler transforms the found array entry. -/
def applyRecOp (a : Applicant) : RecOp → Applicant
  | .update p => mergeApplicant a p
  | .comment c => addCommentToRecord a c

/-- Effect of a sequence of addressed operations. -/
def applyRecOps (a : Applicant) (ops : List RecOp) : Applicant :=
  ops.foldl applyRecOp a

/-- Update bodies in the sequence carry neither an `id` nor a `dateAdded`
key; comments are unrestricted. -/
def keepsStamps : RecOp → Prop
  | .update p => p.id = none ∧ p.dateAdded = none
  | .comment _ => True

/-- The 404 body `\x7b success: false, error: 'Applicant not found' \x7d` of
the file backend. -/
def notFoundResp : Resp := ⟨404, false, some "Applicant not found", none, none⟩

/-- The 404 body of the document backend's handlers. -/
def mNotFound : ErrResp := ⟨404, some false, some "Applicant not found"⟩

/-- Example comment by Alice. -/
def cAlice : Comment := ⟨"Alice", "strong profile", "d1"⟩

/-- Example comment by Bob. -/
def cBob : Comment := ⟨"Bob", "schedule a call", "d2"⟩

/-- Second example comment by Alice, with different text. -/
def cAlice2 : Comment := ⟨"Alice", "second look", "d3"⟩

/-- The single record of the comment scenario's store. -/
def demoA : Applicant := ⟨some 7, some "d0", none, []⟩

/-- A one-record store for the comment scenario. -/
def demo0 : List Applicant := [demoA]

/-- Store after Alice's first comment. -/
def demo1 : List Applicant := (applyOp demo0 (.addComment "7" cAlice true)).1

/-- Store after Bob's comment. -/
def demo2 : List Applicant := (applyOp demo1 (.addComment "7" cBob true)).1

/-- Store after Alice's second comment. -/
def demo3 : List Applicant := (applyOp demo2 (.addComment "7" cAlice2 true)).1

/-- A concrete stored applicant for witnesses. -/
def wA : Applicant := ⟨some 1, some "jan", none, [("notes", "old"), ("city", "berlin")]⟩

/-- A concrete update body touching only `notes`. -/
def wP : Payload := ⟨none, none, none, [("notes", "new")]⟩

/-- A concrete document-backend record for witnesses. -/
def mA : MApplicant := ⟨1, some "Ada", none, none, none, none, none, some "jan", []⟩

/-- A concrete document-backend update body touching only `notes`. -/
def mp0 : MPayload := ⟨none, none, none, none, some "call", none, none, none, none⟩

/-- An insert body whose comments array already holds two comments by the
same person. -/
def dupPayload : Payload :=
  ⟨none, none, some [⟨"Alice", "first", "x1"⟩, ⟨"Alice", "second", "x2"⟩], []⟩

/-- An insert body with no comments key. -/
def benignP : Payload := ⟨none, none, none, [("fullName", "Ada")]⟩

/-- A record held by an unreadable file in the list counterexample. -/
def ghost : Applicant := ⟨some 3, some "jan", none, []⟩

instance (a : Applicant) : Decidable (personsNodup a) := by
  unfold personsNodup
  infer_instance

instance (s : List Applicant) : Decidable (invC2 s) := by
  unfold invC2
  exact List.decidableBAll _ s

instance (op : RecOp) : Decidable (keepsStamps op) := by
  cases op <;> (unfold keepsStamps; infer_instance)

instance (op : Op) : Decidable (benignOp op) := by
  cases op <;> (unfold benignOp; infer_instance)

theorem idEq_none (r : Option Int) : idEq r none = false := by
  cases r <;> rfl

theorem findRec_eq_some {s : List Applicant} {pid : Option Int} :
    ∀ {i : Nat} {a : Applicant}, findRec s pid = some (i, a) →
      s[i]? = some a ∧ idEq a.id pid = true := by
  induction s with
  | nil => intro i a h; simp [findRec] at h
  | cons b rest ih =>
    intro i a h
    rw [show findRec (b :: rest) pid =
        (if idEq b.id pid then some (0, b)
         else (findRec rest pid).map (fun q => (q.1 + 1, q.2))) from rfl] at h
    by_cases hb : idEq b.id pid = true
    · rw [if_pos hb] at h
      have h2 := Option.some.inj h
      have hi : i = 0 := (congrArg Prod.fst h2).symm
      have hab : a = b := (congrArg Prod.snd h2).symm
      subst hi
      subst hab
      simp [hb]
    · rw [if_neg hb] at h
      rcases hr : findRec rest pid with _ | ⟨j, c⟩
      · rw [hr] at h
        simp at h
      · rw [hr, Option.map_some'] at h
        have h2 := Option.some.inj h
        have hi : i = j + 1 := (congrArg Prod.fst h2).symm
        have hac : a = c := (congrArg Prod.snd h2).symm
        subst hi
        subst hac
        obtain ⟨hg, hid⟩ := ih hr
        exact ⟨by simpa using hg, hid⟩

theorem findRec_mem {s : List Applicant} {pid : Option Int} {i : Nat} {a : Applicant}
    (h : findRec s pid = some (i, a)) : a ∈ s :=
  List.getElem?_mem (findRec_eq_some h).1

theorem findRec_eq_none {s : List Applicant} {pid : Option Int}
    (h : ∀ a ∈ s, idEq a.id pid = false) : findRec s pid = none := by
  induction s with
  | nil => rfl
  | cons b rest ih =>
    have hb := h b (by simp)
    simp [findRec, hb]
    exact ih fun a ha => h a (by simp [ha])

theorem findRec_isSome {s : List Applicant} {pid : Option Int} {a : Applicant}
    (ha : a ∈ s) (h : idEq a.id pid = true) : ∃ q, findRec s pid = some q := by
  induction s with
  | nil => simp at ha
  | cons b rest ih =>
    by_cases hb : idEq b.id pid = true
    · exact ⟨(0, b), by simp [findRec, hb]⟩
    · rcases List.mem_cons.mp ha with hab | ha2
      · exact absurd (hab ▸ h) hb
      · obtain ⟨q, hq⟩ := ih ha2
        exact ⟨(q.1 + 1, q.2), by simp [findRec, hb, hq]⟩

theorem mergeComment_persons_nodup {l : List Comment} {c : Comment}
    (h : (l.map Comment.person).Nodup) :
    ((mergeComment l c).map Comment.person).Nodup := by
  have hm : (mergeComment l c).map Comment.person =
      (l.filter (fun x => x.person != c.person)).map Comment.person ++ [c.person] := by
    simp [mergeComment]
  rw [hm, List.nodup_append]
  refine ⟨h.sublist ((List.filter_sublist l).map Comment.person), List.nodup_singleton _, ?_⟩
  rw [List.disjoint_singleton]
  intro hmem
  obtain ⟨x, hx, hxp⟩ := List.mem_map.mp hmem
  obtain ⟨-, hxf⟩ := List.mem_filter.mp hx
  rw [hxp] at hxf
  simp at hxf

theorem lookupField_cons (k1 v1 : String) (rest : List (String × String)) (k : String) :
    lookupField ((k1, v1) :: rest) k =
      if k1 == k then some v1 else lookupField rest k := by
  by_cases h : (k1 == k) = true <;> simp [lookupField, List.find?_cons, h]

theorem lookupField_append (l1 l2 : List (String × String)) (k : String) :
    lookupField (l1 ++ l2) k = (lookupField l1 k).or (lookupField l2 k) := by
  unfold lookupField
  rw [List.find?_append]
  rcases h : List.find? (fun q => q.1 == k) l1 with _ | q <;> simp [h]

theorem lookupField_map_override (a b : List (String × String)) (k : String) :
    lookupField (a.map (fun q => (q.1, (lookupField b q.1).getD q.2))) k =
      (lookupField a k).map (fun v => (lookupField b k).getD v) := by
  induction a with
  | nil => rfl
  | cons q rest ih =>
    obtain ⟨k1, v1⟩ := q
    by_cases h : (k1 == k) = true
    · have hk : k1 = k := by simpa using h
      subst hk
      simp [List.map_cons, lookupField_cons, h]
    · simp [List.map_cons, lookupField_cons, h, ih]

theorem lookupField_filter (a b : List (String × String)) (k : String) :
    lookupField (b.filter (fun q => (lookupField a q.1).isNone)) k =
      if (lookupField a k).isNone then lookupField b k else none := by
  induction b with
  | nil => simp [lookupField]
  | cons q rest ih =>
    obtain ⟨k1, v1⟩ := q
    by_cases hk : (k1 == k) = true
    · have hkk : k1 = k := by simpa using hk
      subst hkk
      by_cases ha : (lookupField a k1).isNone = true
      · simp [List.filter_cons, ha, lookupField_cons, hk]
      · simp [List.filter_cons, ha, ih, lookupField_cons]
    · by_cases hq : (lookupField a k1).isNone = true
      · simp [List.filter_cons, hq, lookupField_cons, hk, ih]
      · simp [List.filter_cons, hq, lookupField_cons, hk, ih]

theorem lookupField_mergeOther (a b : List (String × String)) (k : String) :
    lookupField (mergeOther a b) k = (lookupField b k).or (lookupField a k) := by
  unfold mergeOther
  rw [lookupField_append, lookupField_map_override, lookupField_filter]
  rcases ha : lookupField a k with _ | v <;> rcases hb : lookupField b k with _ | w <;> simp

theorem commentsOf_merge_none {a : Applicant} {p : Payload} (h : p.comments = none) :
    commentsOf (mergeApplicant a p) = commentsOf a := by
  simp [commentsOf, mergeApplicant, h, Option.orElse]

theorem mMatches_none (a : MApplicant) : mMatches a none = false := rfl

theorem updateFirst_nomatch {s : List MApplicant} {pid : Option Int}
    {f : MApplicant → MApplicant}
    (h : ∀ a ∈ s, mMatches a pid = false) : updateFirst s pid f = s := by
  induction s with
  | nil => rfl
  | cons b rest ih =>
    simp [updateFirst, h b (by simp)]
    exact ih fun a ha => h a (by simp [ha])

theorem updateFirst_any {s : List MApplicant} {pid : Option Int}
    {f : MApplicant → MApplicant}
    (hf : ∀ a, mMatches (f a) pid = mMatches a pid) :
    (updateFirst s pid f).any (fun a => mMatches a pid) =
      s.any (fun a => mMatches a pid) := by
  induction s with
  | nil => rfl
  | cons b rest ih =>
    by_cases hb : mMatches b pid = true <;> simp [updateFirst, hb, hf, ih]

/-- C5: for every insert body, inserting into an empty store and then
listing returns exactly one record, whose id and dateAdded are the stamped
clock values and whose remaining fields are exactly the caller-supplied
fields, unchanged. -/
theorem insert_then_list (p : Payload) (now : Int) (today : String) :
    (applyOp [] (.insert p now today true)).1 = [mkApplicant p now today] ∧
    readApplicants (.content (applyOp [] (.insert p now today true)).1) =
      [mkApplicant p now today] ∧
    (mkApplicant p now today).id = some now ∧
    (mkApplicant p now today).dateAdded = some today ∧
    (mkApplicant p now today).other = p.other ∧
    (mkApplicant p now today).comments = p.comments ∧
    (applyOp [] (.insert p now today true)).2 =
      ⟨200, true, none, some (mkApplicant p now today), none⟩ :=
  ⟨rfl, rfl, rfl, rfl, rfl, rfl, rfl⟩

/-- C1: the comment operation replaces the addressed record's comment
sequence by the prior sequence with every same-person entry removed and the
new comment appended; in the concrete scenario, Alice then Bob yields the
sequence Alice, Bob, and re-adding Alice yields Bob then the second Alice
comment. -/
theorem comment_replaces_same_person (s : List Applicant) (idStr : String)
    (c : Comment) (i : Nat) (a : Applicant)
    (h : findRec s (parseIntJS idStr) = some (i, a)) :
    ((applyOp s (.addComment idStr c true)).1 = s.set i { a with comments := some ((commentsOf a).filter (fun x => x.person != c.person) ++ [c]) } ∧
     (applyOp s (.addComment idStr c true)).2.status = 200) ∧
    (demo2.map commentsOf = [[cAlice, cBob]] ∧
     demo3.map commentsOf = [[cBob, cAlice2]]) := by
  refine ⟨⟨?_, ?_⟩, by decide, by decide⟩
  · simp [applyOp, h, addCommentToRecord, mergeComment]
  · simp [applyOp, h]

/-- Witness for C1 at a concrete store and comment. -/
theorem comment_replaces_same_person_witness :
    findRec demo0 (parseIntJS "7") = some (0, demoA) ∧
    (applyOp demo0 (Op.addComment "7" cAlice true)).2.status = 200 :=
  ⟨by decide,
   ((comment_replaces_same_person demo0 "7" cAlice 0 demoA (by decide)).1).2⟩

/-- C3: updating a found record applies a shallow merge — every field named
in the body takes the body's value, every other stored field is unchanged —
persists the result at the record's index, returns the updated record, and
modifies no other record. -/
theorem updateById_shallow_merge (s : List Applicant) (idStr : String) (p : Payload)
    (i : Nat) (a : Applicant)
    (h : findRec s (parseIntJS idStr) = some (i, a)) :
    (applyOp s (.update idStr p true)).1 = s.set i (mergeApplicant a p) ∧
    (applyOp s (.update idStr p true)).2 =
      ⟨200, true, none, some (mergeApplicant a p), none⟩ ∧
    (∀ v : Int, p.id = some v → (mergeApplicant a p).id = some v) ∧
    (p.id = none → (mergeApplicant a p).id = a.id) ∧
    (∀ v : String, p.dateAdded = some v → (mergeApplicant a p).dateAdded = some v) ∧
    (p.dateAdded = none → (mergeApplicant a p).dateAdded = a.dateAdded) ∧
    (∀ cs : List Comment, p.comments = some cs → (mergeApplicant a p).comments = some cs) ∧
    (p.comments = none → (mergeApplicant a p).comments = a.comments) ∧
    (∀ k v, lookupField p.other k = some v →
      lookupField (mergeApplicant a p).other k = some v) ∧
    (∀ k, lookupField p.other k = none →
      lookupField (mergeApplicant a p).other k = lookupField a.other k) ∧
    (∀ j, j ≠ i → ((applyOp s (.update idStr p true)).1)[j]? = s[j]?) := by
  refine ⟨?_, ?_, ?_, ?_, ?_, ?_, ?_, ?_, ?_, ?_, ?_⟩
  · simp [applyOp, h]
  · simp [applyOp, h]
  · intro v hv; simp [mergeApplicant, hv, Option.orElse]
  · intro hv; simp [mergeApplicant, hv, Option.orElse]
  · intro v hv; simp [mergeApplicant, hv, Option.orElse]
  · intro hv; simp [mergeApplicant, hv, Option.orElse]
  · intro cs hv; simp [mergeApplicant, hv, Option.orElse]
  · intro hv; simp [mergeApplicant, hv, Option.orElse]
  · intro k v hv
    rw [show (mergeApplicant a p).other = mergeOther a.other p.other from rfl,
      lookupField_mergeOther, hv]
    rfl
  · intro k hv
    rw [show (mergeApplicant a p).other = mergeOther a.other p.other from rfl,
      lookupField_mergeOther, hv]
    rfl
  · intro j hj
    simp only [applyOp, h]
    exact List.getElem?_set_ne (Ne.symm hj)

/-- Witness for C3: updating the one-record store with a body naming only
`notes` rewrites `notes`, keeps `city` and `id`, and touches no other
index. -/
theorem updateById_shallow_merge_witness :
    findRec [wA] (parseIntJS "1") = some (0, wA) ∧
    (applyOp [wA] (Op.update "1" wP true)).1 = [wA].set 0 (mergeApplicant wA wP) ∧
    lookupField (mergeApplicant wA wP).other "notes" = some "new" ∧
    lookupField (mergeApplicant wA wP).other "city" = lookupField wA.other "city" ∧
    (mergeApplicant wA wP).id = wA.id := by
  have t := updateById_shallow_merge [wA] "1" wP 0 wA (by decide)
  obtain ⟨h1, h2, h3, h4, h5, h6, h7, h8, h9, h10, h11⟩ := t
  exact ⟨by decide, h1, h9 "notes" "new" (by decide), h10 "city" (by decide), h4 rfl⟩

/-- C4 as stated fails: an update body that itself carries id and dateAdded
keys overwrites the creation-time stamps through the spread merge. -/
theorem stamps_immutable_cex :
    (applyRecOps (mkApplicant ⟨none, none, none, []⟩ 1 "jan")
      [RecOp.update ⟨some 999, some "feb", none, []⟩]).id = some 999 ∧
    (applyRecOps (mkApplicant ⟨none, none, none, []⟩ 1 "jan")
      [RecOp.update ⟨some 999, some "feb", none, []⟩]).id ≠ some 1 ∧
    (applyRecOps (mkApplicant ⟨none, none, none, []⟩ 1 "jan")
      [RecOp.update ⟨some 999, some "feb", none, []⟩]).dateAdded ≠ some "jan" := by
  refine ⟨rfl, by decide, by decide⟩

/-- C4 amended: for every record and every sequence of update and comment
operations addressed to it whose update bodies carry neither an id nor a
dateAdded key, the record's id and dateAdded equal the values assigned at
creation. -/
theorem stamps_immutable_amended (p : Payload) (now : Int) (today : String)
    (ops : List RecOp) (h : ∀ op ∈ ops, keepsStamps op) :
    (applyRecOps (mkApplicant p now today) ops).id = some now ∧
    (applyRecOps (mkApplicant p now today) ops).dateAdded = some today := by
  have key : ∀ (l : List RecOp) (a : Applicant), (∀ op ∈ l, keepsStamps op) →
      (applyRecOps a l).id = a.id ∧ (applyRecOps a l).dateAdded = a.dateAdded := by
    intro l
    induction l with
    | nil => exact fun a _ => ⟨rfl, rfl⟩
    | cons op rest ih =>
      intro a hl
      have hop := hl op (by simp)
      have hrest := ih (applyRecOp a op) (fun o ho => hl o (by simp [ho]))
      cases op with
      | update q =>
        refine ⟨hrest.1.trans ?_, hrest.2.trans ?_⟩
        · simp [applyRecOp, mergeApplicant, hop.1, Option.orElse]
        · simp [applyRecOp, mergeApplicant, hop.2, Option.orElse]
      | comment c => exact ⟨hrest.1.trans rfl, hrest.2.trans rfl⟩
  exact key ops (mkApplicant p now today) h

/-- Witness for the amended C4 on a concrete benign sequence. -/
theorem stamps_immutable_amended_witness :
    (∀ op ∈ [RecOp.update wP, RecOp.comment cAlice], keepsStamps op) ∧
    (applyRecOps (mkApplicant benignP 5 "jan")
      [RecOp.update wP, RecOp.comment cAlice]).id = some 5 ∧
    (applyRecOps (mkApplicant benignP 5 "jan")
      [RecOp.update wP, RecOp.comment cAlice]).dateAdded = some "jan" := by
  have hb : ∀ op ∈ [RecOp.update wP, RecOp.comment cAlice], keepsStamps op := by
    intro op hop
    simp at hop
    rcases hop with rfl | rfl
    · exact ⟨rfl, rfl⟩
    · exact trivial
  have t := stamps_immutable_amended benignP 5 "jan" [RecOp.update wP, RecOp.comment cAlice] hb
  exact ⟨hb, t.1, t.2⟩

/-- C2 as stated fails: one insert whose body carries a comments array with
two comments by the same person reaches, through the HTTP interface, a
state in which a record holds two comments by Alice. -/
theorem comment_invariant_cex :
    ReachableVia (fun _ => True) (applyOp [] (.insert dupPayload 1 "d" true)).1 ∧
    ¬ invC2 (applyOp [] (.insert dupPayload 1 "d" true)).1 :=
  ⟨ReachableVia.step ReachableVia.nil trivial, by decide⟩

/-- C2 amended: over states reachable from the empty store through
operations whose insert and update bodies carry no comments key, every
record's comment sequence holds at most one comment per distinct person
after every operation. -/
theorem comment_invariant_amended {s : List Applicant}
    (h : ReachableVia benignOp s) : invC2 s := by
  induction h with
  | nil => intro a ha; simp at ha
  | step hs hP ih =>
    rename_i s0 op
    cases op with
    | insert p now today wOk =>
      have hP2 : p.comments = none := hP
      cases wOk with
      | false =>
        simp only [applyOp]
        exact ih
      | true =>
        intro x hx
        have hx2 : x ∈ s0 ∨ x = mkApplicant p now today := by
          simpa [applyOp, List.mem_append] using hx
        rcases hx2 with h1 | h2
        · exact ih x h1
        · subst h2
          simp [personsNodup, commentsOf, mkApplicant, hP2]
    | update idStr p wOk =>
      have hP2 : p.comments = none := hP
      rcases hr : findRec s0 (parseIntJS idStr) with _ | ⟨i, a⟩
      · simp only [applyOp, hr]
        exact ih
      · cases wOk with
        | false =>
          simp only [applyOp, hr]
          exact ih
        | true =>
          intro x hx
          have hx2 : x ∈ s0.set i (mergeApplicant a p) := by
            simpa [applyOp, hr] using hx
          rcases List.mem_or_eq_of_mem_set hx2 with h1 | h2
          · exact ih x h1
          · subst h2
            have hpa := ih a (findRec_mem hr)
            unfold personsNodup at hpa ⊢
            rw [commentsOf_merge_none hP2]
            exact hpa
    | delete idStr wOk =>
      rcases hr : findRec s0 (parseIntJS idStr) with _ | ⟨i, a⟩
      · simp only [applyOp, hr]
        exact ih
      · cases wOk with
        | false =>
          simp only [applyOp, hr]
          exact ih
        | true =>
          intro x hx
          have hx2 : x ∈ s0.eraseIdx i := by
            simpa [applyOp, hr] using hx
          exact ih x ((List.eraseIdx_sublist s0 i).subset hx2)
    | addComment idStr c wOk =>
      rcases hr : findRec s0 (parseIntJS idStr) with _ | ⟨i, a⟩
      · simp only [applyOp, hr]
        exact ih
      · cases wOk with
        | false =>
          simp only [applyOp, hr]
          exact ih
        | true =>
          intro x hx
          have hx2 : x ∈ s0.set i (addCommentToRecord a c) := by
            simpa [applyOp, hr] using hx
          rcases List.mem_or_eq_of_mem_set hx2 with h1 | h2
          · exact ih x h1
          · subst h2
            exact mergeComment_persons_nodup (ih a (findRec_mem hr))
    | clearAll wOk =>
      cases wOk with
      | false =>
        simp only [applyOp]
        exact ih
      | true =>
        intro a ha
        simp [applyOp] at ha

/-- Witness for the amended C2 on a concrete benign trace. -/
theorem comment_invariant_amended_witness :
    invC2 (applyOp (applyOp [] (.insert benignP 1 "d" true)).1
      (.addComment "1" cAlice true)).1 :=
  comment_invariant_amended
    (ReachableVia.step (ReachableVia.step ReachableVia.nil rfl) trivial)

/-- When no file-backend record matches the parsed id, the three
record-addressing handlers answer 404 and leave the array unchanged. -/
theorem fileHandlersNotFound (s : List Applicant) (idStr : String) (p : Payload)
    (c : Comment) (w : Bool)
    (h : ∀ a ∈ s, idEq a.id (parseIntJS idStr) = false) :
    applyOp s (.update idStr p w) = (s, notFoundResp) ∧
    applyOp s (.delete idStr w) = (s, notFoundResp) ∧
    applyOp s (.addComment idStr c w) = (s, notFoundResp) := by
  have hf := findRec_eq_none h
  exact ⟨by simp [applyOp, hf, notFoundResp], by simp [applyOp, hf, notFoundResp],
    by simp [applyOp, hf, notFoundResp]⟩

/-- When no document matches the parsed id, the three record-addressing
handlers of the document backend answer 404 and leave the collection
unchanged. -/
theorem mongoHandlersNotFound (ms : List MApplicant) (idStr : String)
    (mp : MPayload) (c : Comment)
    (h : ∀ a ∈ ms, mMatches a (parseIntJS idStr) = false) :
    mUpdate ms idStr mp = (ms, mNotFound) ∧
    mDelete ms idStr = (ms, mNotFound) ∧
    mAddComment ms idStr c = (ms, mNotFound) := by
  have hany : ms.any (fun a => mMatches a (parseIntJS idStr)) = false :=
    List.any_eq_false.mpr (fun x hx => by simp [h x hx])
  refine ⟨?_, ?_, ?_⟩
  · simp [mUpdate, hany, mNotFound]
  · simp [mDelete, hany, mNotFound]
  · simp only [mAddComment]
    rw [updateFirst_nomatch h]
    simp [hany, mNotFound]

/-- C6: for every id matching no stored record, the update, delete and
add-comment handlers of both backends answer 404 with success:false and an
error message and leave the store unchanged; for every id that does match,
none of them answers 404. -/
theorem missing_id_responds_404 (s : List Applicant) (ms : List MApplicant)
    (idStr : String) (p : Payload) (mp : MPayload) (c : Comment) (w : Bool) :
    ((∀ a ∈ s, idEq a.id (parseIntJS idStr) = false) →
      applyOp s (.update idStr p w) = (s, notFoundResp) ∧
      applyOp s (.delete idStr w) = (s, notFoundResp) ∧
      applyOp s (.addComment idStr c w) = (s, notFoundResp)) ∧
    ((∃ a ∈ s, idEq a.id (parseIntJS idStr) = true) →
      (applyOp s (.update idStr p w)).2.status ≠ 404 ∧
      (applyOp s (.delete idStr w)).2.status ≠ 404 ∧
      (applyOp s (.addComment idStr c w)).2.status ≠ 404) ∧
    ((∀ a ∈ ms, mMatches a (parseIntJS idStr) = false) →
      mUpdate ms idStr mp = (ms, mNotFound) ∧
      mDelete ms idStr = (ms, mNotFound) ∧
      mAddComment ms idStr c = (ms, mNotFound)) ∧
    ((∃ a ∈ ms, mMatches a (parseIntJS idStr) = true) →
      (mUpdate ms idStr mp).2.status ≠ 404 ∧
      (mDelete ms idStr).2.status ≠ 404 ∧
      (mAddComment ms idStr c).2.status ≠ 404) := by
  have hidf : ∀ x : MApplicant, mMatches { x with comments := x.comments.filter (fun y => y.person != c.person) } (parseIntJS idStr) = mMatches x (parseIntJS idStr) := by
    intro x
    cases parseIntJS idStr <;> rfl
  refine ⟨?_, ?_, ?_, ?_⟩
  · exact fileHandlersNotFound s idStr p c w
  · intro h
    obtain ⟨a, ha, hid⟩ := h
    obtain ⟨q, hq⟩ := findRec_isSome ha hid
    obtain ⟨i, b⟩ := q
    refine ⟨?_, ?_, ?_⟩ <;> (cases w <;> simp [applyOp, hq])
  · exact mongoHandlersNotFound ms idStr mp c
  · intro h
    obtain ⟨a, ha, hid⟩ := h
    have hany : ms.any (fun x => mMatches x (parseIntJS idStr)) = true :=
      List.any_eq_true.mpr ⟨a, ha, hid⟩
    refine ⟨?_, ?_, ?_⟩
    · simp [mUpdate, hany]
    · simp [mDelete, hany]
    · simp [mAddComment, updateFirst_any hidf, hany]

/-- Witness for C6 at concrete stores: id 9 matches nothing, id 1 matches
the stored record, in both backends. -/
theorem missing_id_responds_404_witness :
    applyOp [wA] (Op.update "9" wP true) = ([wA], notFoundResp) ∧
    (applyOp [wA] (Op.update "1" wP true)).2.status ≠ 404 ∧
    mUpdate [mA] "9" mp0 = ([mA], mNotFound) ∧
    (mAddComment [mA] "1" cAlice).2.status ≠ 404 := by
  refine ⟨?_, ?_, ?_, ?_⟩
  · exact ((missing_id_responds_404 [wA] [mA] "9" wP mp0 cAlice true).1 (by decide)).1
  · exact ((missing_id_responds_404 [wA] [mA] "1" wP mp0 cAlice true).2.1
      ⟨wA, by decide, by decide⟩).1
  · exact ((missing_id_responds_404 [wA] [mA] "9" wP mp0 cAlice true).2.2.1 (by decide)).1
  · exact ((missing_id_responds_404 [wA] [mA] "1" wP mp0 cAlice true).2.2.2
      ⟨mA, by decide, by decide⟩).2.2

/-- C7 as stated fails: a non-PDF upload is rejected with no file written,
but the response status is 500 (the fileFilter error reaches Express's
default error handler), not 400. -/
theorem upload_nonpdf_cex :
    uploadResume ⟨true, "image/png", none, "cv.png"⟩ 5 = ⟨500, false, none⟩ ∧
    (uploadResume ⟨true, "image/png", none, "cv.png"⟩ 5).status ≠ 400 := by
  exact ⟨rfl, by decide⟩

/-- C7 amended: a non-PDF upload is rejected with status 500 and no file
written; a request with no file is answered 400 with no file written; a PDF
upload is stored under the client-supplied fileName when given, otherwise
under the current timestamp joined to the original name. -/
theorem upload_resume_amended (r : UploadReq) (now : Int) :
    (r.hasFile = false → uploadResume r now = ⟨400, false, none⟩) ∧
    (r.hasFile = true → r.mimetype ≠ "application/pdf" →
      uploadResume r now = ⟨500, false, none⟩) ∧
    (r.hasFile = true → r.mimetype = "application/pdf" →
      (∀ n, r.fileName = some n → uploadResume r now = ⟨200, true, some n⟩) ∧
      (r.fileName = none →
        uploadResume r now = ⟨200, true, some (toString now ++ "_" ++ r.originalname)⟩)) := by
  obtain ⟨hf, mt, fn, origName⟩ := r
  refine ⟨?_, ?_, ?_⟩
  · intro h
    subst h
    rfl
  · intro h hm
    subst h
    have hb : (mt == "application/pdf") = false := by
      simpa using hm
    simp [uploadResume, hb]
  · intro h hm
    subst h
    subst hm
    constructor
    · intro n hn
      have hn2 : fn = some n := hn
      simp [uploadResume, hn2]
    · intro hn
      have hn2 : fn = none := hn
      simp [uploadResume, hn2]

/-- Witness for the amended C7 at the four concrete request shapes. -/
theorem upload_resume_amended_witness :
    uploadResume ⟨false, "application/pdf", none, "cv.pdf"⟩ 5 = ⟨400, false, none⟩ ∧
    uploadResume ⟨true, "text/plain", none, "cv.txt"⟩ 5 = ⟨500, false, none⟩ ∧
    uploadResume ⟨true, "application/pdf", some "mine.pdf", "cv.pdf"⟩ 5 = ⟨200, true, some "mine.pdf"⟩ ∧
    uploadResume ⟨true, "application/pdf", none, "cv.pdf"⟩ 7 = ⟨200, true, some (toString (7 : Int) ++ "_" ++ "cv.pdf")⟩ :=
  ⟨(upload_resume_amended ⟨false, "application/pdf", none, "cv.pdf"⟩ 5).1 rfl,
   (upload_resume_amended ⟨true, "text/plain", none, "cv.txt"⟩ 5).2.1 rfl (by decide),
   ((upload_resume_amended ⟨true, "application/pdf", some "mine.pdf", "cv.pdf"⟩ 5).2.2 rfl rfl).1 "mine.pdf" rfl,
   ((upload_resume_amended ⟨true, "application/pdf", none, "cv.pdf"⟩ 7).2.2 rfl rfl).2 rfl⟩

/-- C8 as stated fails: the document backend's list endpoint answers 500
with a body that carries no success field at all. -/
theorem error_envelope_cex :
    mongoListError ∈ errorResponses "boom" ∧
    mongoListError.status = 500 ∧
    mongoListError.success ≠ some false ∧
    mongoListError.error = some "Failed to fetch applicants" := by
  refine ⟨by decide, rfl, by decide, rfl⟩

/-- C8 amended: every 500 response constructed by the handlers of both
servers carries success:false and an error message, except the document
backend's list endpoint, whose 500 body holds only an error field. -/
theorem error_envelope_amended (msg : String) (r : ErrResp)
    (hr : r ∈ errorResponses msg) (hne : r ≠ mongoListError) :
    r.status = 500 ∧ r.success = some false ∧ r.error.isSome = true := by
  fin_cases hr
  · exact ⟨rfl, rfl, rfl⟩
  · exact ⟨rfl, rfl, rfl⟩
  · exact ⟨rfl, rfl, rfl⟩
  · exact ⟨rfl, rfl, rfl⟩
  · exact ⟨rfl, rfl, rfl⟩
  · exact ⟨rfl, rfl, rfl⟩
  · exact absurd rfl hne
  · exact ⟨rfl, rfl, rfl⟩

/-- Witness for the amended C8 at a concrete 500 response. -/
theorem error_envelope_amended_witness :
    (⟨500, some false, some "Failed to save applicant"⟩ : ErrResp).status = 500 ∧
    (⟨500, some false, some "Failed to save applicant"⟩ : ErrResp).success = some false ∧
    (⟨500, some false, some "Failed to save applicant"⟩ : ErrResp).error.isSome = true :=
  error_envelope_amended "boom" ⟨500, some false, some "Failed to save applicant"⟩
    (by decide) (by decide)

/-- C9 as stated fails: with the backing file present but unreadable, the
file backend's list answers 200 with the empty array — silently reporting a
record set different from the persisted one instead of surfacing 5xx. -/
theorem list_silent_fallback_cex :
    persistedRecords (.unreadable [ghost]) = [ghost] ∧
    fileListResponse (.unreadable [ghost]) = (200, []) ∧
    (fileListResponse (.unreadable [ghost])).2 ≠ persistedRecords (.unreadable [ghost]) ∧
    (fileListResponse (.unreadable [ghost])).1 = 200 := by
  refine ⟨rfl, rfl, by decide, rfl⟩

/-- C9 amended: the document backend's list surfaces query failure as 500;
the file backend's list always answers 200, returning the parsed records
when the file is readable and silently falling back to the empty array when
the file is absent or unreadable. -/
theorem list_amended (fs : FileState) (dbOk : Bool) (docs : List MApplicant) :
    ((fileListResponse fs).1 = 200 ∧
     (∀ l, fs = .content l → (fileListResponse fs).2 = l) ∧
     (∀ l, fs = .unreadable l → (fileListResponse fs).2 = []) ∧
     (fs = .absent → (fileListResponse fs).2 = [])) ∧
    (dbOk = true → mList dbOk docs = (200, docs)) ∧
    (dbOk = false → (mList dbOk docs).1 = 500) := by
  refine ⟨⟨rfl, ?_, ?_, ?_⟩, ?_, ?_⟩
  · intro l h
    subst h
    rfl
  · intro l h
    subst h
    rfl
  · intro h
    subst h
    rfl
  · intro h
    subst h
    rfl
  · intro h
    subst h
    rfl

/-- Witness for the amended C9 at concrete file and database states. -/
theorem list_amended_witness :
    (fileListResponse (FileState.content [ghost])).2 = [ghost] ∧
    (fileListResponse (FileState.unreadable [ghost])).2 = [] ∧
    (mList false []).1 = 500 :=
  ⟨(list_amended (FileState.content [ghost]) true []).1.2.1 [ghost] rfl,
   (list_amended (FileState.unreadable [ghost]) true []).1.2.2.1 [ghost] rfl,
   (list_amended (FileState.content []) false []).2.2 rfl⟩

/-- C10: a non-integer :id, on which parseInt yields NaN, makes the update,
delete and add-comment handlers of both backends answer 404 with the store
unchanged, rather than 500. -/
theorem nan_id_responds_404 (s : List Applicant) (ms : List MApplicant)
    (idStr : String) (p : Payload) (mp : MPayload) (c : Comment) (w : Bool)
    (h : parseIntJS idStr = none) :
    applyOp s (.update idStr p w) = (s, notFoundResp) ∧
    applyOp s (.delete idStr w) = (s, notFoundResp) ∧
    applyOp s (.addComment idStr c w) = (s, notFoundResp) ∧
    mUpdate ms idStr mp = (ms, mNotFound) ∧
    mDelete ms idStr = (ms, mNotFound) ∧
    mAddComment ms idStr c = (ms, mNotFound) := by
  have hall : ∀ a ∈ s, idEq a.id (parseIntJS idStr) = false := by
    intro a _
    rw [h]
    exact idEq_none a.id
  have hmall : ∀ a ∈ ms, mMatches a (parseIntJS idStr) = false := by
    intro a _
    rw [h]
    exact mMatches_none a
  have tf := fileHandlersNotFound s idStr p c w hall
  have tm := mongoHandlersNotFound ms idStr mp c hmall
  exact ⟨tf.1, tf.2.1, tf.2.2, tm.1, tm.2.1, tm.2.2⟩

/-- Witness for C10 on the literal id "abc", which parseInt cannot parse. -/
theorem nan_id_responds_404_witness :
    parseIntJS "abc" = none ∧
    applyOp [wA] (Op.delete "abc" true) = ([wA], notFoundResp) ∧
    mDelete [mA] "abc" = ([mA], mNotFound) := by
  have t := nan_id_responds_404 [wA] [mA] "abc" wP mp0 cAlice true (by decide)
  exact ⟨by decide, t.2.1, t.2.2.2.2.1⟩
